import Mathlib

/-!
A verification development for the document-theme chatbot's core pipeline:
extraction persistence (document_processor.py), the chunk store and vector-db
construction (vector_db.py), the single-document query engine
(query_processor.py) and the theme synthesis engine (theme_processor.py).

External services (PDF loaders, FAISS, the embedding model and the language
model) are modelled as inputs: a call that can raise is an `Except` value, a
call that returns data is a plain argument. Machine strings are `String`
(Python indexes/lengths count code points, as `String.toList` does).
-/

namespace DocBot

/-- Python's whitespace class (ASCII range), as used by `str.strip` and by
the `\s` class of the `re` module on the characters this pipeline writes. -/
def isPySpace (c : Char) : Bool :=
  c = ' ' || c = '\t' || c = '\n' || c = '\r' || c = '\x0b' || c = '\x0c'

/-- Python `str.strip()` on a list of characters. -/
def stripL (l : List Char) : List Char :=
  ((l.dropWhile isPySpace).reverse.dropWhile isPySpace).reverse

/-- Python `str.strip()` on a string. -/
def pyStrip (s : String) : String := String.mk (stripL s.toList)

/-- Python `sep.join(xs)`. -/
def joinSep (sep : String) : List String → String
  | [] => ""
  | [x] => x
  | x :: y :: xs => x ++ sep ++ joinSep sep (y :: xs)

/-- Python `"".join(xs)`. -/
def joinAll (l : List String) : String := joinSep "" l

/-- The decimal digit character for `m % 10`. -/
def digitChar (m : Nat) : Char :=
  if m = 0 then '0'
  else if m = 1 then '1'
  else if m = 2 then '2'
  else if m = 3 then '3'
  else if m = 4 then '4'
  else if m = 5 then '5'
  else if m = 6 then '6'
  else if m = 7 then '7'
  else if m = 8 then '8'
  else '9'

/-- Fuelled digit accumulator for decimal rendering (fuel `n` itself is always
enough, as the value shrinks by a factor of ten each step). -/
def decGo : Nat → Nat → List Char → List Char
  | 0, _, acc => acc
  | _ + 1, 0, acc => acc
  | f + 1, n + 1, acc => decGo f ((n + 1) / 10) (digitChar ((n + 1) % 10) :: acc)

/-- Decimal rendering of a natural number, as Python `str(n)` produces it. -/
def decRepr (n : Nat) : List Char := if n = 0 then ['0'] else decGo n n []

/-- Python `str(n)` for a natural number. -/
def natStr (n : Nat) : String := String.mk (decRepr n)

/-- Python `str(p)` for an integer. -/
def intStr (p : Int) : String :=
  if p < 0 then "-" ++ natStr p.natAbs else natStr p.natAbs

/-! ## Single-document query engine (query_processor.py, `query_document`) -/

/-- A retrieved chunk as the query engine sees it: its text and the
`citation` entry of its metadata (absent when the key is missing). -/
structure RChunk where
  page_content : String
  citation : Option String
deriving DecidableEq

/-- The dict returned by `query_document`. Confidence is a rational standing
for the Python float literals 0, 0.7 and 0.95 (they are only compared,
never computed with). -/
structure QueryResult where
  answer : String
  citation : String
  confidence : ℚ
deriving DecidableEq

/-- Python `doc.metadata.get('citation', default)`. -/
def citeD (default : String) (d : RChunk) : String := d.citation.getD default

/-- One step of the citation-collection loop (query_processor.py lines 91-95):
append the chunk's citation unless it is already present. -/
def citeStep (cs : List String) (d : RChunk) : List String :=
  let c := citeD "Citation not available" d
  if c ∈ cs then cs else cs ++ [c]

/-- The citation list collected on the generated-answer path: insertion
order, de-duplicated. -/
def collectCitations (docs : List RChunk) : List String :=
  docs.foldl citeStep []

/-- The function `query_document(query, content_path, doc_id)` (query_processor.py lines
22-131), with the external collaborators as inputs: `dbOk` is whether
`create_document_vector_db` returned a store, `relevant_docs` is what
`query_vector_db` returned, `setup` covers the LLM/prompt construction done
inside the outer `try` (lines 51-83, an exception there reaches the outer
handler), and `gen` is the `chain.invoke` call guarded by the inner `try`. -/
def query_document (query doc_id : String) (dbOk : Bool) (relevant_docs : List RChunk)
    (setup : Except String Unit) (gen : Except String String) : QueryResult :=
  if dbOk = false then
    { answer := "Error: Could not process document " ++ doc_id
      citation := "Error"
      confidence := 0 }
  else if relevant_docs.isEmpty then
    { answer := "No relevant information found in this document."
      citation := "N/A"
      confidence := 0 }
  else
    match setup with
    | Except.error e =>
        { answer := "Error processing query: " ++ e
          citation := "Error"
          confidence := 0 }
    | Except.ok _ =>
        match gen with
        | Except.ok response =>
            { answer := response
              citation := joinSep "; " (collectCitations relevant_docs)
              confidence := 95 / 100 }
        | Except.error _ =>
            let context_simple := joinSep "\n" (relevant_docs.map (fun d => d.page_content))
            { answer := "Found relevant information: " ++
                String.mk (context_simple.toList.take 500) ++ "..."
              citation := joinSep "; " (relevant_docs.map (citeD "Unknown"))
              confidence := 7 / 10 }

/-! ## Extraction pipeline (document_processor.py, `process_document`) -/

/-- A LangChain document/chunk as the pipeline sees it: its text and the
`page` entry of its metadata (absent when the loader supplied none). -/
structure PageDoc where
  page_content : String
  page : Option Int
deriving DecidableEq

/-- Outcome of the loader-selection stage: the loaded documents and the
`ocr_used` flag. -/
structure ExtractOut where
  documents : List PageDoc
  ocr_used : Bool
deriving DecidableEq

/-- The PDF branch of `process_document` (document_processor.py lines 62-85):
`fast` is the outcome of `PyPDFLoader(...).load()` and `ocrDocs` what
`UnstructuredPDFLoader(..., mode="elements").load()` returns when invoked. -/
def pdfLoadStage (fast : Except String (List PageDoc)) (ocrDocs : List PageDoc) : ExtractOut :=
  match fast with
  | Except.error _ => { documents := ocrDocs, ocr_used := true }
  | Except.ok documents =>
      let total_text := joinAll (documents.map (fun d => d.page_content))
      if (pyStrip total_text).length < 100 then
        { documents := ocrDocs, ocr_used := true }
      else
        { documents := documents, ocr_used := false }

/-- The value stored under the `page` key of a chunk record: the writer
stores an integer, the loader's default stores the string `Unknown`. -/
inductive PageLabel
  | num : Int → PageLabel
  | unknown : PageLabel
deriving DecidableEq

/-- How a `page` value is interpolated into the citation f-string. -/
def labelStr : PageLabel → String
  | PageLabel.num p => intStr p
  | PageLabel.unknown => "Unknown"

/-- One record of the `{doc_id}_chunks.json` sidecar (a `page_info` dict of
document_processor.py lines 125-130). -/
structure ChunkInfoRec where
  chunk_id : Nat
  page : PageLabel
  source : String
  doc_id : String
deriving DecidableEq

/-- The `pages_info` construction loop of `process_document`
(document_processor.py lines 116-131): the i-th chunk gets `chunk_id = i+1`
and keeps its page number if the metadata has one, else the loop first
stores `i+1` under the `page` key and that value is recorded. -/
def mkPagesInfo (doc_id file_path : String) (split_docs : List PageDoc) : List ChunkInfoRec :=
  split_docs.enum.map (fun p =>
    { chunk_id := p.1 + 1
      page := match p.2.page with
              | some pg => PageLabel.num pg
              | none => PageLabel.num (Int.ofNat (p.1 + 1))
      source := file_path
      doc_id := doc_id })

/-- The chunk delimiter written for the i-th chunk, the f-string
`"\n--- Document Chunk {i+1} ---\n"` (document_processor.py line 134),
with its head exposed for the scanning proofs. -/
def markerL (k : Nat) : List Char :=
  '\n' :: ("--- Document Chunk ".toList ++ decRepr k ++ " ---\n".toList)

/-- The `full_text` accumulation loop of `process_document` (lines 116-136):
each chunk is preceded by its marker and followed by a newline. -/
def saveAuxL : Nat → List (List Char) → List Char
  | _, [] => []
  | i, c :: rest => markerL i ++ (c ++ '\n' :: saveAuxL (i + 1) rest)

/-- The delimited full text persisted to `{doc_id}_content.txt`. -/
def saveFullText (chunks : List String) : String :=
  String.mk (saveAuxL 1 (chunks.map String.toList))

/-! ## Chunk store loading (vector_db.py, `get_document_chunks`) -/

/-- Literal matcher: consume `lit` from the front of `s`. -/
def matchLit : List Char → List Char → Option (List Char)
  | [], s => some s
  | _ :: _, [] => none
  | a :: as, c :: cs => if a = c then matchLit as cs else none

/-- Decimal digit class, re's `\d` on the characters this pipeline writes. -/
def isDigitCh (c : Char) : Bool := '0' ≤ c && c ≤ '9'

/-- Matcher for the delimiter regex `\n---\s*Document Chunk \d+\s*---\n`
(vector_db.py line 50) at the current position. On this pattern greedy
`\s*`/`\d+` munching never needs backtracking (a whitespace or digit can
never begin the literal that follows), so the maximal-munch matcher below
is exactly Python's. -/
def matchMarker (s : List Char) : Option (List Char) :=
  match matchLit ('\n' :: '-' :: '-' :: '-' :: []) s with
  | none => none
  | some s1 =>
      let s2 := s1.dropWhile isPySpace
      match matchLit "Document Chunk ".toList s2 with
      | none => none
      | some s3 =>
          if (s3.takeWhile isDigitCh).isEmpty then none
          else
            let s4 := (s3.dropWhile isDigitCh).dropWhile isPySpace
            matchLit ('-' :: '-' :: '-' :: '\n' :: []) s4

/-- Driver of `re.split`: scan left to right, split at each leftmost
non-overlapping match. Fuel-structural; fuel equal to the input length is
always sufficient since a match consumes at least four characters. -/
def splitGo : Nat → List Char → List Char → List (List Char)
  | 0, acc, _ => [acc.reverse]
  | _ + 1, acc, [] => [acc.reverse]
  | f + 1, acc, c :: rest =>
      match matchMarker (c :: rest) with
      | some after => acc.reverse :: splitGo f [] after
      | none => splitGo f (c :: acc) rest

/-- Python `re.split(r'\n---\s*Document Chunk \d+\s*---\n', content)`. -/
def splitMarkers (l : List Char) : List (List Char) := splitGo l.length [] l

/-- The split driver `splitGo` at its canonical fuel (the length of the remaining input). -/
def splitRun (acc l : List Char) : List (List Char) := splitGo l.length acc l

/-- Whether the list starts with the four characters every delimiter match
must start with: newline followed by three dashes. -/
def startsNLDash (l : List Char) : Bool :=
  match l with
  | a :: b :: c :: d :: _ => a = '\n' && b = '-' && c = '-' && d = '-'
  | _ => false

/-- Whether newline-dash-dash-dash occurs anywhere in the list. A chunk text
free of this sequence can never be mistaken for a delimiter. -/
def hasNLDash : List Char → Bool
  | [] => false
  | c :: rest => startsNLDash (c :: rest) || hasNLDash rest

/-- A loaded chunk (a `Document` built by `get_document_chunks`,
vector_db.py lines 57-79): stripped text plus the metadata dict. The
`source` key is present only when the sidecar record was found. -/
structure LoadedChunk where
  page_content : String
  page : PageLabel
  doc_id : String
  chunk_id : Nat
  source : Option String
  citation : String
deriving DecidableEq

/-- The `chunks_metadata` dict lookup (vector_db.py lines 43-47, 62): records
with a falsy `chunk_id` are skipped, later records overwrite earlier ones. -/
def lookupMeta (chunks_info : List ChunkInfoRec) (cid : Nat) : Option ChunkInfoRec :=
  ((chunks_info.filter (fun m => m.chunk_id ≠ 0)).reverse).find? (fun m => m.chunk_id == cid)

/-- Fragment-to-Document construction of `get_document_chunks` (vector_db.py
lines 49-79): split on the delimiter regex, drop fragments that strip to
empty, then attach sidecar metadata by 1-based position, synthesizing an
`Unknown`-page default when the record is missing. -/
def buildDocs (content : String) (chunks_info : List ChunkInfoRec) (doc_id : String) :
    List LoadedChunk :=
  let chunks := (splitMarkers content.toList).filter (fun f => !(stripL f).isEmpty)
  chunks.enum.map (fun p =>
    let cid := p.1 + 1
    match lookupMeta chunks_info cid with
    | some m =>
        { page_content := String.mk (stripL p.2)
          page := m.page
          doc_id := m.doc_id
          chunk_id := m.chunk_id
          source := some m.source
          citation := "Page " ++ labelStr m.page ++ ", Chunk " ++ natStr cid }
    | none =>
        { page_content := String.mk (stripL p.2)
          page := PageLabel.unknown
          doc_id := doc_id
          chunk_id := cid
          source := none
          citation := "Page Unknown, Chunk " ++ natStr cid })

/-- The function `get_document_chunks(content_path, doc_id, chunks_path)` (vector_db.py
lines 18-85). `contentRead` is the outcome of reading the content file;
`metasRead` is `none` when the chunks file does not exist (the code then
proceeds with an empty metadata dict) and otherwise the outcome of reading
and parsing it. Any raised exception is caught and yields `[]`. -/
def get_document_chunks (contentRead : Except String String)
    (metasRead : Option (Except String (List ChunkInfoRec))) (doc_id : String) :
    List LoadedChunk :=
  match contentRead with
  | Except.error _ => []
  | Except.ok content =>
      match metasRead with
      | some (Except.error _) => []
      | some (Except.ok chunks_info) => buildDocs content chunks_info doc_id
      | none => buildDocs content [] doc_id

/-- The function `create_document_vector_db(doc_id)` (vector_db.py lines 87-115): `none`
when no chunks were loaded or when `FAISS.from_documents` raises (`faissOk`
false); otherwise the store over the loaded chunks. -/
def create_document_vector_db (contentRead : Except String String)
    (metasRead : Option (Except String (List ChunkInfoRec))) (doc_id : String)
    (faissOk : Bool) : Option (List LoadedChunk) :=
  let docs := get_document_chunks contentRead metasRead doc_id
  if docs.isEmpty then none
  else if faissOk then some docs else none

/-! ## Persistence of the three artifacts (document_processor.py lines 138-180) -/

/-- The `{doc_id}_metadata.json` summary (document_processor.py lines 150-157). -/
structure MetaRec where
  doc_id : String
  original_file : String
  file_type : String
  processing_time : String
  chunks_count : Nat
  ocr_used : Bool
deriving DecidableEq

/-- The on-disk artifacts for one document id. -/
structure Store where
  content : Option String
  chunksRec : Option (List ChunkInfoRec)
  metaRec : Option MetaRec
deriving DecidableEq

/-- The dict returned by `process_document`. -/
inductive ProcResult
  | success : String → Nat → String → Bool → ProcResult
  | error : String → String → ProcResult
deriving DecidableEq

/-- Whether a `process_document` outcome is the error dict. -/
def ProcResult.isErr : ProcResult → Bool
  | ProcResult.error _ _ => true
  | _ => false

/-- Extraction-and-persistence path of `process_document` (document_processor.py
lines 48-180). `extraction` is everything up to and including the splitter:
the chunk list and the `ocr_used` flag, or the message of a raised
exception. `wContent`, `wChunks`, `wMeta` are the outcomes of the three
sequential file writes (lines 139-160); a failing write raises, so the
handler at line 173 returns the error dict, but files already written stay. -/
def process_persist (st : Store) (doc_id file_path file_ext original_file timestamp : String)
    (extraction : Except String (List PageDoc × Bool))
    (wContent wChunks wMeta : Except String Unit) : Store × ProcResult :=
  match extraction with
  | Except.error e => (st, ProcResult.error doc_id e)
  | Except.ok (split_docs, ocr_used) =>
      match wContent with
      | Except.error e => (st, ProcResult.error doc_id e)
      | Except.ok _ =>
          let st1 := { st with content := some (saveFullText (split_docs.map (fun d => d.page_content))) }
          match wChunks with
          | Except.error e => (st1, ProcResult.error doc_id e)
          | Except.ok _ =>
              let st2 := { st1 with chunksRec := some (mkPagesInfo doc_id file_path split_docs) }
              match wMeta with
              | Except.error e => (st2, ProcResult.error doc_id e)
              | Except.ok _ =>
                  let metadata : MetaRec :=
                    { doc_id := doc_id
                      original_file := original_file
                      file_type := file_ext
                      processing_time := timestamp
                      chunks_count := split_docs.length
                      ocr_used := ocr_used }
                  let st3 := { st2 with metaRec := some metadata }
                  (st3, ProcResult.success doc_id split_docs.length file_ext ocr_used)

/-- The three artifacts are present together or absent together. -/
abbrev allOrNothing (st : Store) : Prop :=
  (st.content.isSome ∧ st.chunksRec.isSome ∧ st.metaRec.isSome) ∨
  (st.content = none ∧ st.chunksRec = none ∧ st.metaRec = none)

/-! ## Theme synthesis (theme_processor.py, `identify_themes` lines 77-118;
`ModernThemeProcessor.identify_themes_modern` shares the identical logic at
lines 259-294). -/

/-- Whether a character ends a sentence for the regex `(.*?[.!?])`. -/
def isTerm (c : Char) : Bool := c = '.' || c = '!' || c = '?'

/-- The lazy regex `(.*?[.!?])` tried at the current position: consume
non-newline characters up to the first terminator; `.` does not match a
newline, and laziness means the earliest terminator wins. -/
def matchLazyAt : List Char → Option (List Char)
  | [] => none
  | c :: rest =>
      if isTerm c then some [c]
      else if c = '\n' then none
      else
        match matchLazyAt rest with
        | some m => some (c :: m)
        | none => none

/-- Python `re.search(r'(.*?[.!?])', content)`: try each start position left to
right, return the first match. -/
def searchSentence : List Char → Option (List Char)
  | [] => none
  | c :: rest =>
      match matchLazyAt (c :: rest) with
      | some m => some m
      | none => searchSentence rest

/-- The theme-name computation (theme_processor.py lines 85-92). -/
def themeNameOf (content : String) : String :=
  match searchSentence content.toList with
  | some m =>
      let theme_name := String.mk m
      if theme_name.length > 50 then String.mk (m.take 47) ++ "..." else theme_name
  | none =>
      if content.length > 50 then String.mk (content.toList.take 50) ++ "..." else content

/-- A theme dict (theme_processor.py lines 95-100). -/
structure Theme where
  name : String
  description : String
  supporting_documents : List String
  citations : List String
deriving DecidableEq

/-- Theme creation from the i-th retrieved chunk (theme_processor.py lines
79-100): note the `"Theme {i+1}: "` prefix on the name. -/
def mkTheme (i : Nat) (c : LoadedChunk) : Theme :=
  { name := "Theme " ++ natStr (i + 1) ++ ": " ++ themeNameOf c.page_content
    description := c.page_content
    supporting_documents := [c.doc_id]
    citations := [c.citation] }

/-- One step of the theme-expansion loop (theme_processor.py lines 110-118):
append the hit's document id and citation unless the id is already
supporting the theme. -/
def expandStep (th : Theme) (d : LoadedChunk) : Theme :=
  if d.doc_id ∈ th.supporting_documents then th
  else
    { th with
      supporting_documents := th.supporting_documents ++ [d.doc_id]
      citations := th.citations ++ [d.citation] }

/-- The expansion loop over `similar_results[1:]` (theme_processor.py lines
107-118). -/
def expandTheme (th : Theme) (similar_results : List LoadedChunk) : Theme :=
  (similar_results.drop 1).foldl expandStep th

/-- The per-theme invariant: co-indexed lists of equal length, no document
id listed twice. -/
def themeInv (th : Theme) : Prop :=
  th.supporting_documents.length = th.citations.length ∧ th.supporting_documents.Nodup

/-! ## Helper lemmas: citation collection -/

theorem citeStep_eq (acc : List String) (d : RChunk) :
    citeStep acc d =
      if citeD "Citation not available" d ∈ acc then acc
      else acc ++ [citeD "Citation not available" d] := rfl

theorem citeFold_nodup (docs : List RChunk) :
    ∀ acc : List String, acc.Nodup → (List.foldl citeStep acc docs).Nodup := by
  induction docs with
  | nil => intro acc h; simpa using h
  | cons d rest ih =>
      intro acc h
      rw [List.foldl_cons]
      apply ih
      rw [citeStep_eq]
      by_cases hc : citeD "Citation not available" d ∈ acc
      · simpa [hc] using h
      · rw [if_neg hc]
        exact h.append (List.nodup_singleton _)
          (fun a ha hb => by simp at hb; subst hb; exact hc ha)

theorem citeFold_extends (docs : List RChunk) :
    ∀ acc : List String, ∃ ex, List.foldl citeStep acc docs = acc ++ ex ∧
      ex.Sublist (docs.map (citeD "Citation not available")) := by
  induction docs with
  | nil => intro acc; exact ⟨[], by simp, by simp⟩
  | cons d rest ih =>
      intro acc
      rw [List.foldl_cons, citeStep_eq]
      by_cases hc : citeD "Citation not available" d ∈ acc
      · rw [if_pos hc]
        obtain ⟨ex, he, hs⟩ := ih acc
        refine ⟨ex, he, ?_⟩
        simp only [List.map_cons]
        exact List.sublist_cons_of_sublist _ hs
      · rw [if_neg hc]
        obtain ⟨ex, he, hs⟩ := ih (acc ++ [citeD "Citation not available" d])
        refine ⟨citeD "Citation not available" d :: ex, ?_, ?_⟩
        · rw [he]; simp
        · simp only [List.map_cons]
          exact hs.cons₂ _

theorem citeFold_mem (docs : List RChunk) :
    ∀ acc : List String, ∀ x ∈ docs.map (citeD "Citation not available"),
      x ∈ List.foldl citeStep acc docs := by
  induction docs with
  | nil => intro acc x hx; simp at hx
  | cons d rest ih =>
      intro acc x hx
      rw [List.foldl_cons]
      rcases (by simpa using hx : x = citeD "Citation not available" d ∨
          x ∈ rest.map (citeD "Citation not available")) with hx | hx
      · subst hx
        obtain ⟨ex, he, _⟩ := citeFold_extends rest (citeStep acc d)
        rw [he]
        apply List.mem_append_left
        rw [citeStep_eq]
        by_cases hc : citeD "Citation not available" d ∈ acc
        · simp only [citeD] at hc ⊢
          simp [hc]
        · simp [hc]
      · exact ih (citeStep acc d) x hx

/-! ## Helper lemmas: theme invariant -/

theorem expandStep_inv (th : Theme) (d : LoadedChunk) (h : themeInv th) :
    themeInv (expandStep th d) := by
  unfold expandStep
  by_cases hc : d.doc_id ∈ th.supporting_documents
  · simpa [hc] using h
  · refine ⟨?_, ?_⟩
    · simp [hc, h.1]
    · simp only [hc, if_false]
      exact h.2.append (List.nodup_singleton _)
        (fun a ha hb => by simp at hb; subst hb; exact hc ha)

theorem expandFold_inv (l : List LoadedChunk) :
    ∀ th : Theme, themeInv th → themeInv (List.foldl expandStep th l) := by
  induction l with
  | nil => intro th h; simpa using h
  | cons d rest ih => intro th h; rw [List.foldl_cons]; exact ih _ (expandStep_inv th d h)

theorem mkTheme_inv (i : Nat) (c : LoadedChunk) : themeInv (mkTheme i c) := by
  constructor <;> simp [mkTheme]

/-! ## C10 -/

/-- C10: for every input and every behaviour of the external services
(including raised exceptions, modelled by the `Except` inputs),
`query_document` returns a record whose confidence is exactly one of 0,
0.7, 0.95, hence in [0,1]; 0.95 exactly on the generated-answer path, 0.7
exactly on the generation-failure fallback path, 0 otherwise. -/
theorem c10_confidence_partition (q d : String) (dbOk : Bool) (docs : List RChunk)
    (setup : Except String Unit) (gen : Except String String) :
    (0 ≤ (query_document q d dbOk docs setup gen).confidence ∧
      (query_document q d dbOk docs setup gen).confidence ≤ 1) ∧
    ((query_document q d dbOk docs setup gen).confidence = 0 ∨
      (query_document q d dbOk docs setup gen).confidence = 7 / 10 ∨
      (query_document q d dbOk docs setup gen).confidence = 95 / 100) ∧
    ((query_document q d dbOk docs setup gen).confidence = 95 / 100 ↔
      dbOk = true ∧ docs ≠ [] ∧ setup = Except.ok () ∧ ∃ s, gen = Except.ok s) ∧
    ((query_document q d dbOk docs setup gen).confidence = 7 / 10 ↔
      dbOk = true ∧ docs ≠ [] ∧ setup = Except.ok () ∧ ∃ e, gen = Except.error e) := by
  cases dbOk with
  | false => simp [query_document]; norm_num
  | true =>
      cases docs with
      | nil => simp [query_document]; norm_num
      | cons a l =>
          cases setup with
          | error e => simp [query_document]; norm_num
          | ok u =>
              cases gen with
              | error e => simp [query_document]; norm_num
              | ok s => simp [query_document]; norm_num

/-! ## C6 -/

/-- C6: when retrieval produced a non-empty chunk list and the generation
call fails, the query does not return an error: the answer is the
500-character excerpt of the concatenated context with an ellipsis, and the
confidence, 0.7, is strictly below the generated-answer confidence 0.95. -/
theorem c6_generation_fallback (q d e : String) (docs : List RChunk) (hne : docs ≠ []) :
    (query_document q d true docs (Except.ok ()) (Except.error e)).answer =
      "Found relevant information: " ++
        String.mk ((joinSep "\n" (docs.map (fun x => x.page_content))).toList.take 500) ++ "..." ∧
    (query_document q d true docs (Except.ok ()) (Except.error e)).confidence = 7 / 10 ∧
    ((7 : ℚ) / 10) < 95 / 100 := by
  have hdocs : docs.isEmpty = false := by
    cases docs with
    | nil => exact absurd rfl hne
    | cons a l => simp
  refine ⟨?_, ?_, by norm_num⟩ <;> simp [query_document, hdocs]

theorem c6_generation_fallback_witness :
    (query_document "q" "d" true [⟨"hello", some "Page 1, Chunk 1"⟩]
      (Except.ok ()) (Except.error "boom")).confidence = 7 / 10 :=
  (c6_generation_fallback "q" "d" "boom" [⟨"hello", some "Page 1, Chunk 1"⟩] (by decide)).2.1

/-! ## C3 -/

/-- C3 counterexample: with two retrieved chunks carrying the same citation,
the generation-failure fallback path joins the citations without
de-duplication, so its citation field is not the de-duplicated join the
claim asserts for every return path. -/
theorem c3_counterexample :
    (query_document "q" "d" true [⟨"t1", some "Page 1, Chunk 1"⟩, ⟨"t2", some "Page 1, Chunk 1"⟩]
      (Except.ok ()) (Except.error "boom")).citation = "Page 1, Chunk 1; Page 1, Chunk 1" ∧
    joinSep "; " (collectCitations
      [⟨"t1", some "Page 1, Chunk 1"⟩, ⟨"t2", some "Page 1, Chunk 1"⟩]) = "Page 1, Chunk 1" ∧
    ("Page 1, Chunk 1; Page 1, Chunk 1" : String) ≠ "Page 1, Chunk 1" := by
  refine ⟨?_, ?_, by decide⟩ <;> rfl

/-- C3 amended: on the generated-answer path the citation field is the
semicolon-join of the retrieved chunks' citations de-duplicated in
insertion order (a duplicate-free sublist containing every retrieved
citation); on the generation-failure fallback path it is the semicolon-join
of all retrieved citations without de-duplication (and with default
`Unknown` instead of `Citation not available`). -/
theorem c3_citation_paths (q d : String) (docs : List RChunk) (hne : docs ≠ []) :
    ((∀ s, (query_document q d true docs (Except.ok ()) (Except.ok s)).citation =
        joinSep "; " (collectCitations docs)) ∧
      (collectCitations docs).Nodup ∧
      (collectCitations docs).Sublist (docs.map (citeD "Citation not available")) ∧
      (∀ x ∈ docs.map (citeD "Citation not available"), x ∈ collectCitations docs)) ∧
    (∀ e, (query_document q d true docs (Except.ok ()) (Except.error e)).citation =
      joinSep "; " (docs.map (citeD "Unknown"))) := by
  have hdocs : docs.isEmpty = false := by
    cases docs with
    | nil => exact absurd rfl hne
    | cons a l => simp
  refine ⟨⟨?_, ?_, ?_, ?_⟩, ?_⟩
  · intro s; simp [query_document, hdocs]
  · exact citeFold_nodup docs [] (by simp)
  · obtain ⟨ex, he, hs⟩ := citeFold_extends docs []
    simpa [collectCitations, he] using hs
  · intro x hx; exact citeFold_mem docs [] x hx
  · intro e; simp [query_document, hdocs]

theorem c3_citation_paths_witness :
    (query_document "q" "d" true [⟨"t1", some "Page 1, Chunk 1"⟩, ⟨"t2", some "Page 1, Chunk 1"⟩]
      (Except.ok ()) (Except.error "oops")).citation =
      joinSep "; " (([⟨"t1", some "Page 1, Chunk 1"⟩, ⟨"t2", some "Page 1, Chunk 1"⟩] :
        List RChunk).map (citeD "Unknown")) :=
  (c3_citation_paths "q" "d"
    [⟨"t1", some "Page 1, Chunk 1"⟩, ⟨"t2", some "Page 1, Chunk 1"⟩] (by decide)).2 "oops"

/-! ## C2 -/

/-- C2: when the fast structured extraction succeeds, the result is replaced
by the OCR result with `ocr_used = true` exactly when the stripped total
text is shorter than 100 characters, and kept with `ocr_used = false`
otherwise. -/
theorem c2_ocr_threshold (docs ocrDocs : List PageDoc) :
    ((pyStrip (joinAll (docs.map (fun d => d.page_content)))).length < 100 →
      pdfLoadStage (Except.ok docs) ocrDocs = { documents := ocrDocs, ocr_used := true }) ∧
    (¬ (pyStrip (joinAll (docs.map (fun d => d.page_content)))).length < 100 →
      pdfLoadStage (Except.ok docs) ocrDocs = { documents := docs, ocr_used := false }) := by
  constructor <;> intro h <;> simp [pdfLoadStage, h]

theorem c2_ocr_threshold_witness :
    pdfLoadStage (Except.ok [⟨"short text", none⟩]) [⟨"ocr text", none⟩] =
      { documents := [⟨"ocr text", none⟩], ocr_used := true } ∧
    pdfLoadStage (Except.ok [⟨String.mk (List.replicate 100 'a'), none⟩]) [⟨"ocr text", none⟩] =
      { documents := [⟨String.mk (List.replicate 100 'a'), none⟩], ocr_used := false } :=
  ⟨(c2_ocr_threshold [⟨"short text", none⟩] [⟨"ocr text", none⟩]).1 (by decide),
   (c2_ocr_threshold [⟨String.mk (List.replicate 100 'a'), none⟩] [⟨"ocr text", none⟩]).2
     (by decide)⟩

/-! ## C4 -/

/-- C4 counterexample: a chunk whose metadata has no page number is recorded
with page label `1` (its own 1-based index), not `Unknown`. -/
theorem c4_counterexample :
    mkPagesInfo "doc1" "f.pdf" [⟨"text", none⟩] =
      [{ chunk_id := 1, page := PageLabel.num 1, source := "f.pdf", doc_id := "doc1" }] ∧
    PageLabel.num 1 ≠ PageLabel.unknown := by
  constructor
  · rfl
  · decide

/-- C4 amended: each chunk gets the 1-based sequence index `i+1`; its page
label is the source page number when the metadata supplies one, and
otherwise the chunk's own 1-based index `i+1` (the `Unknown` default exists
only in the loader, for fragments whose sidecar record is missing). -/
theorem c4_chunk_index_page (doc_id file_path : String) (split_docs : List PageDoc)
    (i : Nat) (hi : i < split_docs.length) :
    ((mkPagesInfo doc_id file_path split_docs).get
        ⟨i, by simpa [mkPagesInfo] using hi⟩).chunk_id = i + 1 ∧
    ((mkPagesInfo doc_id file_path split_docs).get
        ⟨i, by simpa [mkPagesInfo] using hi⟩).page =
      (match (split_docs.get ⟨i, hi⟩).page with
        | some pg => PageLabel.num pg
        | none => PageLabel.num (Int.ofNat (i + 1))) := by
  constructor <;>
    simp [mkPagesInfo, List.get_eq_getElem, List.getElem_map, List.getElem_enum]

theorem c4_chunk_index_page_witness :
    ((mkPagesInfo "doc1" "f.pdf" [⟨"text", none⟩]).get
        ⟨0, by simp [mkPagesInfo]⟩).chunk_id = 0 + 1 ∧
    ((mkPagesInfo "doc1" "f.pdf" [⟨"text", none⟩]).get
        ⟨0, by simp [mkPagesInfo]⟩).page =
      (match (([⟨"text", none⟩] : List PageDoc).get ⟨0, by decide⟩).page with
        | some pg => PageLabel.num pg
        | none => PageLabel.num (Int.ofNat (0 + 1))) :=
  c4_chunk_index_page "doc1" "f.pdf" [⟨"text", none⟩] 0 (by decide)

/-! ## C9 -/

/-- C9: a theme built from one chunk satisfies the invariant (co-indexed
lists of equal length, duplicate-free supporting documents); every
expansion step preserves it; a step whose document id is already supporting
the theme changes nothing; hence the invariant holds after the whole
expansion loop. -/
theorem c9_theme_invariant (i : Nat) (c : LoadedChunk) (similar_results : List LoadedChunk) :
    themeInv (mkTheme i c) ∧
    (∀ th d, themeInv th → themeInv (expandStep th d)) ∧
    (∀ th d, d.doc_id ∈ th.supporting_documents → expandStep th d = th) ∧
    themeInv (expandTheme (mkTheme i c) similar_results) := by
  refine ⟨mkTheme_inv i c, fun th d h => expandStep_inv th d h, ?_, ?_⟩
  · intro th d hmem
    simp [expandStep, hmem]
  · exact expandFold_inv _ _ (mkTheme_inv i c)

theorem c9_theme_invariant_witness :
    themeInv (mkTheme 0 ⟨"Alpha point.", PageLabel.num 1, "D1", 1, none, "Page 1, Chunk 1"⟩) ∧
    themeInv (expandStep (mkTheme 0 ⟨"Alpha point.", PageLabel.num 1, "D1", 1, none, "Page 1, Chunk 1"⟩)
      ⟨"Beta.", PageLabel.num 2, "D2", 1, none, "Page 2, Chunk 1"⟩) ∧
    expandStep (mkTheme 0 ⟨"Alpha point.", PageLabel.num 1, "D1", 1, none, "Page 1, Chunk 1"⟩)
      ⟨"Gamma.", PageLabel.num 3, "D1", 2, none, "Page 3, Chunk 2"⟩ =
      mkTheme 0 ⟨"Alpha point.", PageLabel.num 1, "D1", 1, none, "Page 1, Chunk 1"⟩ ∧
    themeInv (expandTheme (mkTheme 0 ⟨"Alpha point.", PageLabel.num 1, "D1", 1, none, "Page 1, Chunk 1"⟩)
      [⟨"Beta.", PageLabel.num 2, "D2", 1, none, "Page 2, Chunk 1"⟩,
       ⟨"Gamma.", PageLabel.num 3, "D1", 2, none, "Page 3, Chunk 2"⟩]) := by
  have h := c9_theme_invariant 0 ⟨"Alpha point.", PageLabel.num 1, "D1", 1, none, "Page 1, Chunk 1"⟩
    [⟨"Beta.", PageLabel.num 2, "D2", 1, none, "Page 2, Chunk 1"⟩,
     ⟨"Gamma.", PageLabel.num 3, "D1", 2, none, "Page 3, Chunk 2"⟩]
  exact ⟨h.1, h.2.1 _ _ h.1, h.2.2.1 _ _ (by decide), h.2.2.2⟩

/-! ## Helper lemmas: literal matching and decimal digits -/

theorem matchLit_self_append : ∀ (l t : List Char), matchLit l (l ++ t) = some t := by
  intro l
  induction l with
  | nil => intro t; rfl
  | cons a as ih => intro t; simp [matchLit, ih]

theorem matchLit_some_eq : ∀ (l s t : List Char), matchLit l s = some t → s = l ++ t := by
  intro l
  induction l with
  | nil => intro s t h; simp [matchLit] at h; simp [h]
  | cons a as ih =>
      intro s t h
      cases s with
      | nil => simp [matchLit] at h
      | cons c cs =>
          by_cases hac : a = c
          · subst hac
            simp only [matchLit, if_pos rfl] at h
            simpa using ih cs t h
          · simp [matchLit, hac] at h

theorem dropWhile_length_le (p : Char → Bool) : ∀ l : List Char,
    (l.dropWhile p).length ≤ l.length := by
  intro l
  induction l with
  | nil => simp
  | cons a l ih =>
      rw [List.dropWhile_cons]
      by_cases h : p a = true
      · simp only [h, if_true]
        exact Nat.le_succ_of_le ih
      · simp [h]

theorem takeWhile_append_sat (p : Char → Bool) (y : Char) (r : List Char) (hy : p y = false) :
    ∀ xs : List Char, (∀ c ∈ xs, p c = true) →
      List.takeWhile p (xs ++ y :: r) = xs := by
  intro xs
  induction xs with
  | nil => intro _; simp [List.takeWhile_cons, hy]
  | cons a l ih =>
      intro h
      rw [List.cons_append, List.takeWhile_cons, if_pos (h a (by simp))]
      rw [ih (fun c hc => h c (by simp [hc]))]

theorem dropWhile_append_sat (p : Char → Bool) (y : Char) (r : List Char) (hy : p y = false) :
    ∀ xs : List Char, (∀ c ∈ xs, p c = true) →
      List.dropWhile p (xs ++ y :: r) = y :: r := by
  intro xs
  induction xs with
  | nil => intro _; simp [List.dropWhile_cons, hy]
  | cons a l ih =>
      intro h
      rw [List.cons_append, List.dropWhile_cons, if_pos (h a (by simp))]
      exact ih (fun c hc => h c (by simp [hc]))

theorem digitChar_digit (m : Nat) : isDigitCh (digitChar m) = true := by
  unfold digitChar
  split_ifs <;> decide

theorem decGo_digits : ∀ (f n : Nat) (acc : List Char),
    (∀ c ∈ acc, isDigitCh c = true) → ∀ c ∈ decGo f n acc, isDigitCh c = true := by
  intro f
  induction f with
  | zero => intro n acc h c hc; rw [decGo] at hc; exact h c hc
  | succ f ih =>
      intro n acc h c hc
      cases n with
      | zero => rw [decGo] at hc; exact h c hc
      | succ n =>
          rw [decGo] at hc
          refine ih _ _ ?_ c hc
          intro x hx
          rcases List.mem_cons.mp hx with h1 | h2
          · rw [h1]; exact digitChar_digit _
          · exact h x h2

theorem decGo_length : ∀ (f n : Nat) (acc : List Char),
    acc.length ≤ (decGo f n acc).length := by
  intro f
  induction f with
  | zero => intro n acc; rw [decGo]
  | succ f ih =>
      intro n acc
      cases n with
      | zero => rw [decGo]
      | succ n =>
          rw [decGo]
          exact Nat.le_trans (Nat.le_succ _) (ih ((n + 1) / 10) (digitChar ((n + 1) % 10) :: acc))

theorem decRepr_digits (n : Nat) : ∀ c ∈ decRepr n, isDigitCh c = true := by
  unfold decRepr
  by_cases h : n = 0
  · simp [h]; decide
  · simp only [h, if_false]
    exact decGo_digits n n [] (by simp)

theorem decRepr_ne_nil (n : Nat) : decRepr n ≠ [] := by
  unfold decRepr
  by_cases h : n = 0
  · simp [h]
  · simp only [h, if_false]
    cases n with
    | zero => exact absurd rfl h
    | succ m =>
        rw [decGo]
        intro hnil
        have := decGo_length m ((m + 1) / 10) (digitChar ((m + 1) % 10) :: [])
        rw [hnil] at this
        simp at this

/-! ## Helper lemmas: the delimiter matcher -/

theorem matchMarker_marker (k : Nat) (rest : List Char) :
    matchMarker (markerL k ++ rest) = some rest := by
  have h1 : "--- Document Chunk ".toList = '-' :: '-' :: '-' :: ' ' :: "Document Chunk ".toList := by
    decide
  have h2 : " ---\n".toList = ' ' :: '-' :: '-' :: '-' :: '\n' :: ([] : List Char) := by decide
  have hshape : markerL k ++ rest =
      ('\n' :: '-' :: '-' :: '-' :: []) ++
        (' ' :: ("Document Chunk ".toList ++
          (decRepr k ++ (' ' :: '-' :: '-' :: '-' :: '\n' :: rest)))) := by
    simp only [markerL, h1, h2, List.cons_append, List.append_assoc, List.nil_append]
  rw [hshape]
  unfold matchMarker
  rw [matchLit_self_append]
  simp only []
  rw [List.dropWhile_cons, if_pos (by decide : isPySpace ' ' = true)]
  have h3 : "Document Chunk ".toList = 'D' :: "ocument Chunk ".toList := by decide
  rw [h3]
  rw [List.cons_append, List.dropWhile_cons, if_neg (by decide : ¬ isPySpace 'D' = true)]
  rw [← List.cons_append, ← h3]
  rw [matchLit_self_append]
  simp only []
  rw [takeWhile_append_sat isDigitCh ' ' _ (by decide) (decRepr k) (decRepr_digits k)]
  rw [if_neg (by simpa [List.isEmpty_iff] using decRepr_ne_nil k)]
  rw [dropWhile_append_sat isDigitCh ' ' _ (by decide) (decRepr k) (decRepr_digits k)]
  rw [List.dropWhile_cons, if_pos (by decide : isPySpace ' ' = true)]
  rw [List.dropWhile_cons, if_neg (by decide : ¬ isPySpace '-' = true)]
  exact matchLit_self_append ('-' :: '-' :: '-' :: '\n' :: []) rest

theorem startsFour (x y z w : Char) (A : List Char) :
    startsNLDash (x :: y :: z :: w :: A) =
      (decide (x = '\n') && decide (y = '-') && decide (z = '-') && decide (w = '-')) := rfl

theorem matchMarker_some_starts (s x : List Char) (h : matchMarker s = some x) :
    startsNLDash s = true := by
  unfold matchMarker at h
  cases h1 : matchLit ('\n' :: '-' :: '-' :: '-' :: []) s with
  | none => rw [h1] at h; exact absurd h (by simp)
  | some s1 =>
      have hs := matchLit_some_eq _ _ _ h1
      rw [hs]
      rfl

theorem matchMarker_none_of (s : List Char) (h : startsNLDash s = false) :
    matchMarker s = none := by
  cases hm : matchMarker s with
  | none => rfl
  | some x =>
      have := matchMarker_some_starts s x hm
      rw [this] at h
      exact absurd h (by simp)

theorem matchMarker_length : ∀ (s t : List Char), matchMarker s = some t →
    t.length + 4 ≤ s.length := by
  intro s t h
  unfold matchMarker at h
  cases h1 : matchLit ('\n' :: '-' :: '-' :: '-' :: []) s with
  | none => rw [h1] at h; exact absurd h (by simp)
  | some s1 =>
      rw [h1] at h
      simp only [] at h
      cases h2 : matchLit "Document Chunk ".toList (s1.dropWhile isPySpace) with
      | none => rw [h2] at h; exact absurd h (by simp)
      | some s3 =>
          rw [h2] at h
          simp only [] at h
          by_cases h3 : (s3.takeWhile isDigitCh).isEmpty = true
          · rw [if_pos h3] at h; exact absurd h (by simp)
          · rw [if_neg h3] at h
            have e1 := matchLit_some_eq _ _ _ h1
            have e2 := matchLit_some_eq _ _ _ h2
            have e4 := matchLit_some_eq _ _ _ h
            have l1 : s.length = s1.length + 4 := by
              rw [e1]; simp
            have l2 : (s1.dropWhile isPySpace).length ≤ s1.length := dropWhile_length_le _ _
            have l3 : (s1.dropWhile isPySpace).length = s3.length + 15 := by
              rw [e2, List.length_append]
              have : ("Document Chunk ".toList).length = 15 := by decide
              omega
            have l4 : (s3.dropWhile isDigitCh).length ≤ s3.length := dropWhile_length_le _ _
            have l5 : ((s3.dropWhile isDigitCh).dropWhile isPySpace).length ≤
                (s3.dropWhile isDigitCh).length := dropWhile_length_le _ _
            have l6 : ((s3.dropWhile isDigitCh).dropWhile isPySpace).length = t.length + 4 := by
              rw [e4]; simp
            omega

/-! ## Helper lemmas: the split driver -/

theorem splitGo_nil (f : Nat) (acc : List Char) : splitGo f acc [] = [acc.reverse] := by
  cases f <;> rfl

theorem splitGo_fuel : ∀ (f g : Nat) (acc s : List Char),
    s.length ≤ f → s.length ≤ g → splitGo f acc s = splitGo g acc s := by
  intro f
  induction f with
  | zero =>
      intro g acc s hf _
      have hs : s = [] := List.length_eq_zero.mp (Nat.le_zero.mp hf)
      subst hs
      rw [splitGo_nil, splitGo_nil]
  | succ f ih =>
      intro g acc s hf hg
      cases s with
      | nil => rw [splitGo_nil, splitGo_nil]
      | cons c rest =>
          cases g with
          | zero => simp at hg
          | succ g =>
              rw [splitGo, splitGo]
              cases hm : matchMarker (c :: rest) with
              | none =>
                  simp only []
                  have hrest : rest.length ≤ f := by simp at hf; omega
                  have hrest2 : rest.length ≤ g := by simp at hg; omega
                  exact ih g (c :: acc) rest hrest hrest2
              | some after =>
                  simp only []
                  have hlen := matchMarker_length _ _ hm
                  have ha1 : after.length ≤ f := by simp at hlen hf ⊢; omega
                  have ha2 : after.length ≤ g := by simp at hlen hg ⊢; omega
                  rw [ih g [] after ha1 ha2]

theorem splitRun_nil (acc : List Char) : splitRun acc [] = [acc.reverse] := rfl

theorem splitRun_cons (acc : List Char) (c : Char) (rest : List Char) :
    splitRun acc (c :: rest) =
      match matchMarker (c :: rest) with
      | some after => acc.reverse :: splitRun [] after
      | none => splitRun (c :: acc) rest := by
  show splitGo (rest.length + 1) acc (c :: rest) = _
  rw [splitGo]
  cases hm : matchMarker (c :: rest) with
  | none => rfl
  | some after =>
      simp only []
      have hlen := matchMarker_length _ _ hm
      have : after.length ≤ rest.length := by simp at hlen; omega
      rw [splitGo_fuel rest.length after.length [] after this (Nat.le_refl _)]
      rfl

/-! ## Helper lemmas: where a delimiter match can start -/

theorem hasNLDash_cons_false (x : Char) (l : List Char) (h : hasNLDash (x :: l) = false) :
    hasNLDash l = false := by
  rw [hasNLDash] at h
  exact (Bool.or_eq_false_iff.mp h).2

theorem noStart_of (c t : List Char) (h : hasNLDash (c ++ ['\n']) = false)
    (ht : t = [] ∨ ∃ u, t = '\n' :: u) :
    startsNLDash (c ++ '\n' :: t) = false := by
  rcases c with _ | ⟨x, _ | ⟨y, _ | ⟨z, _ | ⟨w, c2⟩⟩⟩⟩
  · rcases ht with rfl | ⟨u, rfl⟩
    · rfl
    · rcases u with _ | ⟨v, _ | ⟨w0, w1⟩⟩ <;> simp [startsNLDash]
  · rcases ht with rfl | ⟨u, rfl⟩
    · rfl
    · rcases u with _ | ⟨v, w⟩ <;> simp [startsNLDash]
  · rcases ht with rfl | ⟨u, rfl⟩
    · rfl
    · simp [startsNLDash]
  · simp [startsNLDash]
  · simp only [List.cons_append] at h ⊢
    rw [hasNLDash] at h
    have h1 := (Bool.or_eq_false_iff.mp h).1
    rw [startsFour] at h1 ⊢
    exact h1

theorem hasNLDash_snoc (l : List Char) (h : hasNLDash l = false) :
    hasNLDash (l ++ ['\n']) = false := by
  induction l with
  | nil => decide
  | cons x l' ih =>
      rw [hasNLDash] at h
      have h1 := (Bool.or_eq_false_iff.mp h).1
      have h2 := (Bool.or_eq_false_iff.mp h).2
      simp only [List.cons_append]
      rw [hasNLDash]
      refine Bool.or_eq_false_iff.mpr ⟨?_, ih h2⟩
      rcases l' with _ | ⟨y, _ | ⟨z, _ | ⟨w, l2⟩⟩⟩
      · rfl
      · rfl
      · simp [startsNLDash]
      · simp only [List.cons_append]
        rw [startsFour] at h1 ⊢
        exact h1

/-! ## Helper lemmas: scanning the saved text -/

theorem splitRun_marker (acc : List Char) (k : Nat) (rest : List Char) :
    splitRun acc (markerL k ++ rest) = acc.reverse :: splitRun [] rest := by
  have hcons : markerL k ++ rest =
      '\n' :: (("--- Document Chunk ".toList ++ decRepr k ++ " ---\n".toList) ++ rest) := by
    simp [markerL]
  have hm : matchMarker ('\n' :: (("--- Document Chunk ".toList ++ decRepr k ++
      " ---\n".toList) ++ rest)) = some rest := by
    rw [← hcons]; exact matchMarker_marker k rest
  rw [hcons, splitRun_cons, hm]

theorem scan_end : ∀ (c acc : List Char), hasNLDash (c ++ ['\n']) = false →
    splitRun acc (c ++ ['\n']) = [acc.reverse ++ (c ++ ['\n'])] := by
  intro c
  induction c with
  | nil =>
      intro acc _
      show splitRun acc ('\n' :: []) = _
      rw [splitRun_cons, matchMarker_none_of _ (by rfl)]
      show splitRun ('\n' :: acc) [] = _
      rw [splitRun_nil]
      simp
  | cons x c' ih =>
      intro acc h
      have htail : hasNLDash (c' ++ ['\n']) = false := by
        refine hasNLDash_cons_false x _ ?_
        simpa [List.cons_append] using h
      have hns : startsNLDash ((x :: c') ++ '\n' :: ([] : List Char)) = false :=
        noStart_of (x :: c') [] h (Or.inl rfl)
      simp only [List.cons_append]
      rw [splitRun_cons, matchMarker_none_of _ (by simpa [List.cons_append] using hns)]
      show splitRun (x :: acc) (c' ++ ['\n']) = _
      rw [ih (x :: acc) htail]
      simp

theorem scan_marker : ∀ (c acc : List Char) (k : Nat) (rest : List Char),
    hasNLDash (c ++ ['\n']) = false →
    splitRun acc (c ++ '\n' :: (markerL k ++ rest)) =
      (acc.reverse ++ (c ++ ['\n'])) :: splitRun [] rest := by
  intro c
  induction c with
  | nil =>
      intro acc k rest _
      show splitRun acc ('\n' :: (markerL k ++ rest)) = _
      have hns : startsNLDash ('\n' :: (markerL k ++ rest)) = false := by
        simp only [markerL, List.cons_append]
        simp [startsNLDash]
      rw [splitRun_cons, matchMarker_none_of _ hns]
      show splitRun ('\n' :: acc) (markerL k ++ rest) = _
      rw [splitRun_marker]
      simp
  | cons x c' ih =>
      intro acc k rest h
      have htail : hasNLDash (c' ++ ['\n']) = false := by
        refine hasNLDash_cons_false x _ ?_
        simpa [List.cons_append] using h
      have hns : startsNLDash ((x :: c') ++ '\n' :: (markerL k ++ rest)) = false :=
        noStart_of (x :: c') (markerL k ++ rest) h
          (Or.inr ⟨("--- Document Chunk ".toList ++ decRepr k ++ " ---\n".toList) ++ rest,
            by simp [markerL]⟩)
      simp only [List.cons_append]
      rw [splitRun_cons, matchMarker_none_of _ (by simpa [List.cons_append] using hns)]
      show splitRun (x :: acc) (c' ++ '\n' :: (markerL k ++ rest)) = _
      rw [ih (x :: acc) k rest htail]
      simp

theorem scan_body : ∀ (cs : List (List Char)) (i : Nat) (c : List Char),
    hasNLDash c = false → (∀ x ∈ cs, hasNLDash x = false) →
    splitRun [] (c ++ '\n' :: saveAuxL i cs) =
      (c ++ ['\n']) :: cs.map (fun x => x ++ ['\n']) := by
  intro cs
  induction cs with
  | nil =>
      intro i c hc _
      show splitRun [] (c ++ '\n' :: ([] : List Char)) = _
      have := scan_end c [] (hasNLDash_snoc c hc)
      simpa using this
  | cons c2 cs' ih =>
      intro i c hc hall
      rw [saveAuxL]
      rw [scan_marker c [] i (c2 ++ '\n' :: saveAuxL (i + 1) cs') (hasNLDash_snoc c hc)]
      rw [ih (i + 1) c2 (hall c2 (by simp)) (fun x hx => hall x (by simp [hx]))]
      simp

theorem splitMarkers_save (cs : List (List Char)) (h : ∀ x ∈ cs, hasNLDash x = false) :
    splitMarkers (saveAuxL 1 cs) = [] :: cs.map (fun x => x ++ ['\n']) := by
  cases cs with
  | nil => rfl
  | cons c cs' =>
      show splitRun [] (saveAuxL 1 (c :: cs')) = _
      rw [saveAuxL, splitRun_marker]
      rw [scan_body cs' 2 c (h c (by simp)) (fun x hx => h x (by simp [hx]))]
      rfl

/-! ## Helper lemmas: stripping -/

theorem dropWhile_append_newline (l : List Char) :
    List.dropWhile isPySpace (l ++ ['\n']) =
      if List.dropWhile isPySpace l = [] then []
      else List.dropWhile isPySpace l ++ ['\n'] := by
  induction l with
  | nil =>
      rw [List.nil_append, List.dropWhile_cons, if_pos (by decide : isPySpace '\n' = true)]
      simp
  | cons x l' ih =>
      rw [List.cons_append, List.dropWhile_cons, List.dropWhile_cons]
      by_cases hx : isPySpace x = true
      · simp only [hx, if_true]
        exact ih
      · simp [hx]

theorem stripL_append_newline (l : List Char) : stripL (l ++ ['\n']) = stripL l := by
  unfold stripL
  rw [dropWhile_append_newline]
  by_cases h : List.dropWhile isPySpace l = []
  · simp [h]
  · rw [if_neg h, List.reverse_append]
    simp only [List.reverse_cons, List.reverse_nil, List.nil_append, List.singleton_append]
    rw [List.dropWhile_cons, if_pos (by decide : isPySpace '\n' = true)]

/-! ## Helper lemmas: loader text projection -/

theorem enum_map_snd_fun (L : List (List Char)) (F : List Char → String) :
    L.enum.map (fun p => F p.2) = L.map F := by
  have h1 : L.enum.map (fun p => F p.2) = (L.enum.map Prod.snd).map F := by
    rw [List.map_map]; rfl
  rw [h1, List.enum_map_snd]

theorem buildDocs_texts (content : String) (chunks_info : List ChunkInfoRec) (doc_id : String) :
    (buildDocs content chunks_info doc_id).map (fun c => c.page_content) =
      ((splitMarkers content.toList).filter (fun f => !(stripL f).isEmpty)).map
        (fun f => String.mk (stripL f)) := by
  unfold buildDocs
  rw [List.map_map]
  have hcomp : ∀ p : Nat × List Char,
      ((fun c : LoadedChunk => c.page_content) ∘
        (fun p : Nat × List Char =>
          match lookupMeta chunks_info (p.1 + 1) with
          | some m =>
              { page_content := String.mk (stripL p.2)
                page := m.page
                doc_id := m.doc_id
                chunk_id := m.chunk_id
                source := some m.source
                citation := "Page " ++ labelStr m.page ++ ", Chunk " ++ natStr (p.1 + 1) }
          | none =>
              { page_content := String.mk (stripL p.2)
                page := PageLabel.unknown
                doc_id := doc_id
                chunk_id := p.1 + 1
                source := none
                citation := "Page Unknown, Chunk " ++ natStr (p.1 + 1) })) p =
        String.mk (stripL p.2) := by
    intro p
    dsimp only [Function.comp]
    cases lookupMeta chunks_info (p.1 + 1) <;> rfl
  calc (((splitMarkers content.toList).filter (fun f => !(stripL f).isEmpty)).enum.map _)
      = ((splitMarkers content.toList).filter (fun f => !(stripL f).isEmpty)).enum.map
          (fun p => String.mk (stripL p.2)) := by
        exact List.map_congr_left (fun p _ => hcomp p)
    _ = _ := enum_map_snd_fun
      ((splitMarkers content.toList).filter (fun f => !(stripL f).isEmpty))
      (fun f => String.mk (stripL f))

/-! ## C1 -/

/-- C1 counterexample: a saved chunk with leading and trailing whitespace is
reloaded stripped, so the round trip does not reproduce the chunk text
exactly. -/
theorem c1_counterexample :
    (get_document_chunks (Except.ok (saveFullText [" a "]))
        (some (Except.ok (mkPagesInfo "d" "f.pdf" [⟨" a ", none⟩]))) "d").map
      (fun c => c.page_content) = ["a"] ∧
    (["a"] : List String) ≠ [" a "] := by decide

/-- C1 amended: provided no saved chunk text contains the delimiter-opening
sequence newline-dash-dash-dash, reloading the persisted delimited text
(with any successfully parsed sidecar, or with the sidecar file absent)
reproduces, in order, exactly the whitespace-stripped texts of the saved
chunks whose stripped text is non-empty; chunks that strip to empty are
dropped and leading/trailing whitespace is removed by the loader. -/
theorem c1_round_trip_stripped (chunks : List String) (chunks_info : List ChunkInfoRec)
    (doc_id : String) (h : ∀ s ∈ chunks, hasNLDash s.toList = false) :
    (get_document_chunks (Except.ok (saveFullText chunks)) (some (Except.ok chunks_info))
        doc_id).map (fun c => c.page_content) =
      (chunks.filter (fun s => !(stripL s.toList).isEmpty)).map pyStrip ∧
    (get_document_chunks (Except.ok (saveFullText chunks)) none doc_id).map
        (fun c => c.page_content) =
      (chunks.filter (fun s => !(stripL s.toList).isEmpty)).map pyStrip := by
  have key : ∀ info : List ChunkInfoRec,
      (buildDocs (saveFullText chunks) info doc_id).map (fun c => c.page_content) =
        (chunks.filter (fun s => !(stripL s.toList).isEmpty)).map pyStrip := by
    intro info
    rw [buildDocs_texts]
    have htl : (saveFullText chunks).toList = saveAuxL 1 (chunks.map String.toList) := rfl
    rw [htl]
    rw [splitMarkers_save (chunks.map String.toList)
      (fun x hx => by
        obtain ⟨s, hs, rfl⟩ := List.mem_map.mp hx
        exact h s hs)]
    rw [List.filter_cons, if_neg (by decide)]
    rw [List.filter_map, List.map_map]
    have hpred : ((fun f => !(stripL f).isEmpty) ∘ (fun x : List Char => x ++ ['\n'])) =
        (fun c : List Char => !(stripL c).isEmpty) := by
      funext c
      simp [Function.comp, stripL_append_newline]
    have hfun : ((fun f => String.mk (stripL f)) ∘ (fun x : List Char => x ++ ['\n'])) =
        (fun c : List Char => String.mk (stripL c)) := by
      funext c
      simp [Function.comp, stripL_append_newline]
    rw [hpred, hfun]
    rw [List.filter_map, List.map_map]
    rfl
  exact ⟨key chunks_info, key []⟩

theorem c1_round_trip_stripped_witness :
    (get_document_chunks (Except.ok (saveFullText ["hello", " world "])) (some (Except.ok []))
        "d").map (fun c => c.page_content) =
      ((["hello", " world "] : List String).filter (fun s => !(stripL s.toList).isEmpty)).map
        pyStrip :=
  (c1_round_trip_stripped ["hello", " world "] [] "d" (by decide)).1

/-! ## C5 -/

/-- C5 counterexample: loading a document whose content file is absent does
not fail with an error; `get_document_chunks` catches the exception and
returns the empty collection, and `create_document_vector_db` returns
`None` (there is no `NotFoundError` anywhere in the code). -/
theorem c5_counterexample :
    get_document_chunks (Except.error "No such file or directory") none "doc1" = [] ∧
    create_document_vector_db (Except.error "No such file or directory") none "doc1" true =
      none :=
  ⟨rfl, rfl⟩

/-- C5 amended: when the persisted chunk data is absent (content read fails)
or empty, `get_document_chunks` returns the empty list rather than raising,
and `create_document_vector_db` then returns `None`, which its callers
treat as the error outcome. -/
theorem c5_missing_returns_empty (msg doc_id : String)
    (metasRead : Option (Except String (List ChunkInfoRec))) (faissOk : Bool) :
    get_document_chunks (Except.error msg) metasRead doc_id = [] ∧
    get_document_chunks (Except.ok "") metasRead doc_id = [] ∧
    create_document_vector_db (Except.error msg) metasRead doc_id faissOk = none ∧
    (∀ contentRead, get_document_chunks contentRead metasRead doc_id = [] →
      create_document_vector_db contentRead metasRead doc_id faissOk = none) := by
  refine ⟨rfl, ?_, rfl, ?_⟩
  · rcases metasRead with _ | e
    · rfl
    · rcases e with e | info <;> rfl
  · intro contentRead hempty
    simp [create_document_vector_db, hempty]

theorem c5_missing_returns_empty_witness :
    create_document_vector_db (Except.ok "") none "doc2" true = none :=
  (c5_missing_returns_empty "msg" "doc2" none true).2.2.2 (Except.ok "")
    ((c5_missing_returns_empty "msg" "doc2" none true).2.1)

/-! ## C7 -/

/-- C7 counterexample: when the metadata write fails after the content and
chunk writes succeeded, `process_document` returns the error dict but the
two already-written artifacts remain persisted — a partial subset. -/
theorem c7_counterexample :
    (process_persist ⟨none, none, none⟩ "doc1" "f.pdf" ".pdf" "f.pdf" "2024-01-01 00:00:00"
        (Except.ok ([⟨"hello world", none⟩], false)) (Except.ok ()) (Except.ok ())
        (Except.error "disk full")).2.isErr = true ∧
    (process_persist ⟨none, none, none⟩ "doc1" "f.pdf" ".pdf" "f.pdf" "2024-01-01 00:00:00"
        (Except.ok ([⟨"hello world", none⟩], false)) (Except.ok ()) (Except.ok ())
        (Except.error "disk full")).1.content.isSome = true ∧
    (process_persist ⟨none, none, none⟩ "doc1" "f.pdf" ".pdf" "f.pdf" "2024-01-01 00:00:00"
        (Except.ok ([⟨"hello world", none⟩], false)) (Except.ok ()) (Except.ok ())
        (Except.error "disk full")).1.chunksRec.isSome = true ∧
    (process_persist ⟨none, none, none⟩ "doc1" "f.pdf" ".pdf" "f.pdf" "2024-01-01 00:00:00"
        (Except.ok ([⟨"hello world", none⟩], false)) (Except.ok ()) (Except.ok ())
        (Except.error "disk full")).1.metaRec = none ∧
    ¬ allOrNothing (process_persist ⟨none, none, none⟩ "doc1" "f.pdf" ".pdf" "f.pdf"
        "2024-01-01 00:00:00" (Except.ok ([⟨"hello world", none⟩], false)) (Except.ok ())
        (Except.ok ()) (Except.error "disk full")).1 := by decide

/-- C7 amended: the three artifacts are written sequentially with no
rollback. An extraction failure persists nothing; a failure of the content
write persists nothing; a failure of the chunk-record write leaves the
content persisted; a failure of the metadata write leaves content and chunk
records persisted; only full success writes all three. Starting from an
empty store, all-or-nothing holds on the extraction-failure and full-success
paths but is violated when a later write fails. -/
theorem c7_persistence_effects (st : Store)
    (doc_id file_path file_ext original_file timestamp e : String)
    (split_docs : List PageDoc) (ocr_used : Bool)
    (wContent wChunks wMeta : Except String Unit) :
    process_persist st doc_id file_path file_ext original_file timestamp (Except.error e)
        wContent wChunks wMeta = (st, ProcResult.error doc_id e) ∧
    process_persist st doc_id file_path file_ext original_file timestamp
        (Except.ok (split_docs, ocr_used)) (Except.error e) wChunks wMeta =
      (st, ProcResult.error doc_id e) ∧
    process_persist st doc_id file_path file_ext original_file timestamp
        (Except.ok (split_docs, ocr_used)) (Except.ok ()) (Except.error e) wMeta =
      ({ st with content := some (saveFullText (split_docs.map (fun d => d.page_content))) },
        ProcResult.error doc_id e) ∧
    process_persist st doc_id file_path file_ext original_file timestamp
        (Except.ok (split_docs, ocr_used)) (Except.ok ()) (Except.ok ()) (Except.error e) =
      ({ st with
          content := some (saveFullText (split_docs.map (fun d => d.page_content)))
          chunksRec := some (mkPagesInfo doc_id file_path split_docs) },
        ProcResult.error doc_id e) ∧
    process_persist st doc_id file_path file_ext original_file timestamp
        (Except.ok (split_docs, ocr_used)) (Except.ok ()) (Except.ok ()) (Except.ok ()) =
      ({ st with
          content := some (saveFullText (split_docs.map (fun d => d.page_content)))
          chunksRec := some (mkPagesInfo doc_id file_path split_docs)
          metaRec := some
            ⟨doc_id, original_file, file_ext, timestamp, split_docs.length, ocr_used⟩ },
        ProcResult.success doc_id split_docs.length file_ext ocr_used) ∧
    allOrNothing (process_persist ⟨none, none, none⟩ doc_id file_path file_ext original_file
        timestamp (Except.error e) wContent wChunks wMeta).1 ∧
    allOrNothing (process_persist ⟨none, none, none⟩ doc_id file_path file_ext original_file
        timestamp (Except.ok (split_docs, ocr_used)) (Except.ok ()) (Except.ok ())
        (Except.ok ())).1 ∧
    ¬ allOrNothing (process_persist ⟨none, none, none⟩ doc_id file_path file_ext original_file
        timestamp (Except.ok (split_docs, ocr_used)) (Except.ok ()) (Except.ok ())
        (Except.error e)).1 := by
  refine ⟨rfl, rfl, rfl, rfl, rfl, Or.inr ⟨rfl, rfl, rfl⟩, Or.inl ⟨rfl, rfl, rfl⟩, ?_⟩
  rintro (⟨-, -, h3⟩ | ⟨h1, -, -⟩)
  · have hm : (process_persist ⟨none, none, none⟩ doc_id file_path file_ext original_file
        timestamp (Except.ok (split_docs, ocr_used)) (Except.ok ()) (Except.ok ())
        (Except.error e)).1.metaRec = none := rfl
    rw [hm] at h3
    simp at h3
  · have hc : (process_persist ⟨none, none, none⟩ doc_id file_path file_ext original_file
        timestamp (Except.ok (split_docs, ocr_used)) (Except.ok ()) (Except.ok ())
        (Except.error e)).1.content =
        some (saveFullText (split_docs.map (fun d => d.page_content))) := rfl
    rw [hc] at h1
    simp at h1

/-! ## Helper lemmas: the lazy sentence regex -/

theorem matchLazyAt_blocked : ∀ (x y : List Char), (∀ c ∈ x, isTerm c = false) →
    matchLazyAt (x ++ '\n' :: y) = none := by
  intro x
  induction x with
  | nil =>
      intro y _
      show matchLazyAt ('\n' :: y) = none
      rw [matchLazyAt, if_neg (by decide), if_pos rfl]
  | cons a x' ih =>
      intro y h
      have ha : isTerm a = false := h a (by simp)
      show matchLazyAt (a :: (x' ++ '\n' :: y)) = none
      rw [matchLazyAt, if_neg (by simp [ha])]
      by_cases han : a = '\n'
      · rw [if_pos han]
      · rw [if_neg han, ih y (fun c hc => h c (by simp [hc]))]

theorem matchLazyAt_no_term : ∀ (x : List Char), (∀ c ∈ x, isTerm c = false) →
    matchLazyAt x = none := by
  intro x
  induction x with
  | nil => intro _; rfl
  | cons a x' ih =>
      intro h
      have ha : isTerm a = false := h a (by simp)
      rw [matchLazyAt, if_neg (by simp [ha])]
      by_cases han : a = '\n'
      · rw [if_pos han]
      · rw [if_neg han, ih (fun c hc => h c (by simp [hc]))]

theorem matchLazyAt_finds : ∀ (m : List Char) (t : Char) (r : List Char),
    (∀ c ∈ m, isTerm c = false ∧ c ≠ '\n') → isTerm t = true →
    matchLazyAt (m ++ t :: r) = some (m ++ [t]) := by
  intro m
  induction m with
  | nil =>
      intro t r _ ht
      show matchLazyAt (t :: r) = _
      rw [matchLazyAt, if_pos (by simp [ht]), List.nil_append]
  | cons a m' ih =>
      intro t r h ht
      have ha := h a (by simp)
      show matchLazyAt (a :: (m' ++ t :: r)) = some (a :: (m' ++ [t]))
      rw [matchLazyAt, if_neg (by simp [ha.1]), if_neg ha.2,
        ih t r (fun c hc => h c (by simp [hc])) ht]

theorem searchSentence_no_term : ∀ (l : List Char), (∀ c ∈ l, isTerm c = false) →
    searchSentence l = none := by
  intro l
  induction l with
  | nil => intro _; rfl
  | cons c rest ih =>
      intro h
      rw [searchSentence, matchLazyAt_no_term (c :: rest) h]
      exact ih (fun x hx => h x (by simp [hx]))

theorem searchSentence_skip : ∀ (a z : List Char), (∀ c ∈ a, isTerm c = false) →
    searchSentence (a ++ '\n' :: z) = searchSentence z := by
  intro a
  induction a with
  | nil =>
      intro z _
      show searchSentence ('\n' :: z) = _
      have hb := matchLazyAt_blocked [] z (by simp)
      rw [List.nil_append] at hb
      rw [searchSentence, hb]
  | cons x a' ih =>
      intro z h
      show searchSentence (x :: (a' ++ '\n' :: z)) = _
      have hb := matchLazyAt_blocked (x :: a') z h
      rw [List.cons_append] at hb
      rw [searchSentence, hb]
      exact ih z (fun c hc => h c (by simp [hc]))

theorem searchSentence_finds (m : List Char) (t : Char) (r : List Char)
    (h : ∀ c ∈ m, isTerm c = false ∧ c ≠ '\n') (ht : isTerm t = true) :
    searchSentence (m ++ t :: r) = some (m ++ [t]) := by
  cases m with
  | nil =>
      show searchSentence (t :: r) = _
      have hf := matchLazyAt_finds [] t r (by simp) ht
      rw [List.nil_append] at hf
      rw [searchSentence, hf]
  | cons x m' =>
      show searchSentence (x :: (m' ++ t :: r)) = _
      have hf := matchLazyAt_finds (x :: m') t r h ht
      rw [List.cons_append] at hf
      rw [searchSentence, hf]

/-! ## C8 -/

/-- C8 counterexample: for the chunk text `abc`-newline-`def. xyz`, whose
first sentence terminator is the period, the claim's name would be the
prefix up to that period; the code instead produces the name with a
`Theme 1: ` prefix and with the sentence cut at the preceding newline
(regex `.` does not cross newlines). -/
theorem c8_counterexample :
    (mkTheme 0 ⟨"abc\ndef. xyz", PageLabel.unknown, "D1", 1, none,
      "Page 1, Chunk 1"⟩).name = "Theme 1: def." ∧
    ("Theme 1: def." : String) ≠ "abc\ndef." := by decide

/-- C8 amended: the theme name is `Theme i+1: ` followed by the name core.
When the text contains a sentence terminator, the name core is the segment
ending at the first terminator and starting just after the last newline
before it (the whole prefix when no newline precedes it), truncated to 47
characters plus an ellipsis when longer than 50; when the text has no
terminator, the core is the first 50 characters plus an ellipsis when the
text is longer than 50, else the whole text. -/
theorem c8_theme_name (i : Nat) :
    (∀ (c : LoadedChunk) (a m r : List Char) (t : Char),
        isTerm t = true → (∀ x ∈ a, isTerm x = false) →
        (∀ x ∈ m, isTerm x = false ∧ x ≠ '\n') →
        c.page_content.toList = a ++ '\n' :: (m ++ t :: r) →
        (mkTheme i c).name = "Theme " ++ natStr (i + 1) ++ ": " ++
          (if (m ++ [t]).length > 50 then String.mk ((m ++ [t]).take 47) ++ "..."
            else String.mk (m ++ [t]))) ∧
    (∀ (c : LoadedChunk) (m r : List Char) (t : Char),
        isTerm t = true → (∀ x ∈ m, isTerm x = false ∧ x ≠ '\n') →
        c.page_content.toList = m ++ t :: r →
        (mkTheme i c).name = "Theme " ++ natStr (i + 1) ++ ": " ++
          (if (m ++ [t]).length > 50 then String.mk ((m ++ [t]).take 47) ++ "..."
            else String.mk (m ++ [t]))) ∧
    (∀ c : LoadedChunk, (∀ x ∈ c.page_content.toList, isTerm x = false) →
        (mkTheme i c).name = "Theme " ++ natStr (i + 1) ++ ": " ++
          (if c.page_content.length > 50 then String.mk (c.page_content.toList.take 50) ++ "..."
            else c.page_content)) := by
  have hname : ∀ c : LoadedChunk, (mkTheme i c).name =
      "Theme " ++ natStr (i + 1) ++ ": " ++ themeNameOf c.page_content := fun _ => rfl
  have hlen : ∀ l : List Char, (String.mk l).length = l.length := fun _ => rfl
  refine ⟨?_, ?_, ?_⟩
  · intro c a m r t ht ha hm hc
    rw [hname]
    have hs : searchSentence c.page_content.toList = some (m ++ [t]) := by
      rw [hc, searchSentence_skip a _ ha, searchSentence_finds m t r hm ht]
    unfold themeNameOf
    rw [hs]
    simp only [hlen]
  · intro c m r t ht hm hc
    rw [hname]
    have hs : searchSentence c.page_content.toList = some (m ++ [t]) := by
      rw [hc, searchSentence_finds m t r hm ht]
    unfold themeNameOf
    rw [hs]
    simp only [hlen]
  · intro c hno
    rw [hname]
    unfold themeNameOf
    rw [searchSentence_no_term _ hno]

theorem c8_theme_name_witness :
    (mkTheme 0 ⟨"abc\ndef. xyz", PageLabel.unknown, "D1", 1, none,
        "Page 1, Chunk 1"⟩).name = "Theme " ++ natStr (0 + 1) ++ ": " ++
      (if (['d', 'e', 'f'] ++ ['.']).length > 50
        then String.mk ((['d', 'e', 'f'] ++ ['.']).take 47) ++ "..."
        else String.mk (['d', 'e', 'f'] ++ ['.'])) ∧
    (mkTheme 0 ⟨"Hi. there", PageLabel.unknown, "D1", 1, none,
        "Page 1, Chunk 1"⟩).name = "Theme " ++ natStr (0 + 1) ++ ": " ++
      (if (['H', 'i'] ++ ['.']).length > 50
        then String.mk ((['H', 'i'] ++ ['.']).take 47) ++ "..."
        else String.mk (['H', 'i'] ++ ['.'])) ∧
    (mkTheme 0 ⟨"no terminator", PageLabel.unknown, "D1", 1, none,
        "Page 1, Chunk 1"⟩).name = "Theme " ++ natStr (0 + 1) ++ ": " ++
      (if ("no terminator" : String).length > 50
        then String.mk (("no terminator" : String).toList.take 50) ++ "..."
        else ("no terminator" : String)) :=
  ⟨(c8_theme_name 0).1 ⟨"abc\ndef. xyz", PageLabel.unknown, "D1", 1, none, "Page 1, Chunk 1"⟩
      ['a', 'b', 'c'] ['d', 'e', 'f'] [' ', 'x', 'y', 'z'] '.'
      (by decide) (by decide) (by decide) (by decide),
   (c8_theme_name 0).2.1 ⟨"Hi. there", PageLabel.unknown, "D1", 1, none, "Page 1, Chunk 1"⟩
      ['H', 'i'] [' ', 't', 'h', 'e', 'r', 'e'] '.'
      (by decide) (by decide) (by decide),
   (c8_theme_name 0).2.2 ⟨"no terminator", PageLabel.unknown, "D1", 1, none, "Page 1, Chunk 1"⟩
      (by decide)⟩

end DocBot
